import Mathlib

/-!
A verification development for the budget-buddy client-side aggregation logic.

The definitions below are a shallow embedding of the aggregation code in
`src/components/budget-list.tsx` (budget progress and ranking),
`src/pages/report-page.tsx` (expense filtering, category/month grouping, report
metrics) and `src/pages/dashboard-page.tsx` (dashboard metrics).

Modelling conventions:
- JavaScript numbers are modelled as exact rationals; the one place where the
  code can produce non-finite doubles (division by a zero monthly limit) is
  modelled by the `JNum` type with explicit Infinity / -Infinity / NaN values.
- JavaScript strings are ASCII here, so `localeCompare` is modelled by the
  lexicographic order on `String`, and `slice` / `startsWith` by the
  corresponding operations on the underlying character list.
- A JavaScript object used as a string-keyed accumulator preserves insertion
  order of its (non-index) keys, so `Object.entries` of the `reduce`
  accumulators is modelled as an association list updated in place.
- `Array.prototype.sort` is stable (ES2019), so it is modelled by
  `List.mergeSort` with the "comparator result is not positive" relation; a NaN
  comparator result is coerced to +0 by the ECMAScript sort, i.e. treated as a
  tie.
-/

namespace BudgetBuddy

/-- An expense record as described by the expense service: backend-assigned id,
description, amount, category name, and an ISO `YYYY-MM-DD` date. -/
structure Expense where
  id : Nat
  description : String
  amount : ℚ
  category : String
  date : String
  deriving DecidableEq, Repr

/-- A budget record from the budget service: category, monthly limit, budget
month (`YYYY-MM`), plus the derived `spent` cache and creation metadata that the
aggregation code never reads. -/
structure Budget where
  id : Option Nat
  category : String
  monthlyLimit : ℚ
  month : String
  spent : ℚ
  createdAt : Option String
  deriving DecidableEq, Repr

/-- A JavaScript IEEE-754 double restricted to the values the aggregation code
can produce: exact rationals plus Infinity, -Infinity and NaN.  Arithmetic on
finite values is modelled exactly (no rounding). -/
inductive JNum where
  | finite (q : ℚ)
  | inf
  | negInf
  | nan
  deriving DecidableEq, Repr

/-- JavaScript division of finite numbers: division by zero yields a signed
infinity, and 0/0 yields NaN. -/
def jdiv (a b : ℚ) : JNum :=
  if b = 0 then
    (if 0 < a then JNum.inf else if a < 0 then JNum.negInf else JNum.nan)
  else JNum.finite (a / b)

/-- Multiplication by the positive literal 100 (IEEE semantics: infinities keep
their sign, NaN propagates). -/
def jmul100 : JNum → JNum
  | JNum.finite q => JNum.finite (q * 100)
  | JNum.inf => JNum.inf
  | JNum.negInf => JNum.negInf
  | JNum.nan => JNum.nan

/-- JavaScript `Math.min(x, c)` with a finite second argument: NaN propagates,
`Math.min(Infinity, c) = c`. -/
def jmin (x : JNum) (c : ℚ) : JNum :=
  match x with
  | JNum.finite q => JNum.finite (min q c)
  | JNum.inf => JNum.finite c
  | JNum.negInf => JNum.negInf
  | JNum.nan => JNum.nan

/-- JavaScript subtraction on `JNum` (used only inside sort comparators). -/
def jsub : JNum → JNum → JNum
  | JNum.nan, _ => JNum.nan
  | _, JNum.nan => JNum.nan
  | JNum.finite p, JNum.finite q => JNum.finite (p - q)
  | JNum.inf, JNum.inf => JNum.nan
  | JNum.inf, _ => JNum.inf
  | JNum.negInf, JNum.negInf => JNum.nan
  | JNum.negInf, _ => JNum.negInf
  | JNum.finite _, JNum.inf => JNum.negInf
  | JNum.finite _, JNum.negInf => JNum.inf

/-- Whether a comparator result keeps the pair in order: the ECMAScript sort
uses "comparator result not positive", and coerces a NaN result to +0. -/
def jleZero : JNum → Bool
  | JNum.finite q => decide (q ≤ 0)
  | JNum.inf => false
  | JNum.negInf => true
  | JNum.nan => true

/-- Lexicographic order on character lists by code point, the JavaScript
code-unit comparison used by the relational string operators and by
`localeCompare` on the ASCII strings this app uses. -/
def lexLt : List Char → List Char → Bool
  | [], [] => false
  | [], _ :: _ => true
  | _ :: _, [] => false
  | c :: cs, d :: ds =>
    if c.toNat < d.toNat then true
    else if d.toNat < c.toNat then false
    else lexLt cs ds

/-- JavaScript `a < b` on strings. -/
def strLt (a b : String) : Bool :=
  lexLt a.data b.data

/-- JavaScript `a <= b` on strings (total order, so the negation of `b < a`). -/
def strLe (a b : String) : Bool :=
  !(strLt b a)

/-- Models JavaScript `s.startsWith(p)` on the ASCII strings this app uses. -/
def strStartsWith (s p : String) : Bool :=
  p.data.isPrefixOf s.data

/-- Models JavaScript `s.slice(0, n)` (used as `date.slice(0, 7)`). -/
def strTake (s : String) (n : Nat) : String :=
  String.mk (s.data.take n)

/-- Drops the first `n` characters of a string (used to read the month digits
out of a `YYYY-MM` key). -/
def strDrop (s : String) (n : Nat) : String :=
  String.mk (s.data.drop n)

/-- The `reduce((sum, expense) => sum + expense.amount, 0)` idiom. -/
def sumAmounts (es : List Expense) : ℚ :=
  es.foldl (fun s e => s + e.amount) 0

/-- A chart entry, the `{name, value}` shape consumed by the Chart component. -/
structure ChartData where
  name : String
  value : ℚ
  deriving DecidableEq, Repr

/-- The report page filter (report-page.tsx, `filteredExpenses`): each criterion
is a string whose empty value means "absent" (the empty string is the only falsy
string in JavaScript). -/
def filteredExpenses (expenses : List Expense)
    (startDate endDate selectedCategory : String) : List Expense :=
  expenses.filter fun e =>
    ((decide (startDate = "") || strLe startDate e.date) &&
      (decide (endDate = "") || strLe e.date endDate)) &&
    (decide (selectedCategory = "") || decide (e.category = selectedCategory))

/-- One step of the `acc[key] = (acc[key] || 0) + amount` accumulator: add to
the existing entry of the key (keeping its position) or append a new entry. -/
def upsertAmount : List (String × ℚ) → String → ℚ → List (String × ℚ)
  | [], k, v => [(k, v)]
  | (k', v') :: rest, k, v =>
    if k' = k then (k', v' + v) :: rest
    else (k', v') :: upsertAmount rest k v

/-- The `reduce` building a string-keyed sum accumulator, as in
`categorySpending` and `monthlySpending` of report-page.tsx; the resulting
association list is the `Object.entries` view of the accumulator object. -/
def groupAmounts (key : Expense → String) (es : List Expense) : List (String × ℚ) :=
  es.foldl (fun acc e => upsertAmount acc (key e) e.amount) []

/-- `categoryData` of report-page.tsx: category sums as chart entries, sorted by
the comparator `(a, b) => b.value - a.value`. -/
def categoryData (es : List Expense) : List ChartData :=
  ((groupAmounts (fun e => e.category) es).map fun p => ChartData.mk p.1 p.2).mergeSort
    (fun a b => decide (b.value ≤ a.value))

/-- The short month name produced by
`toLocaleDateString(en-US, month: short)` for a two-digit month number. -/
def monthShortName (mm : String) : String :=
  if mm = "01" then "Jan" else if mm = "02" then "Feb"
  else if mm = "03" then "Mar" else if mm = "04" then "Apr"
  else if mm = "05" then "May" else if mm = "06" then "Jun"
  else if mm = "07" then "Jul" else if mm = "08" then "Aug"
  else if mm = "09" then "Sep" else if mm = "10" then "Oct"
  else if mm = "11" then "Nov" else "Dec"

/-- The humanized label `"MMM YYYY"` the code derives from a `YYYY-MM` key via
`new Date(name + "-01").toLocaleDateString(en-US, month: short, year: numeric)`. -/
def monthLabel (ym : String) : String :=
  monthShortName (strTake (strDrop ym 5) 2) ++ " " ++ strTake ym 4

/-- `monthlyData` of report-page.tsx: month sums keyed by `date.slice(0, 7)`,
materialized with humanized labels and sorted by the comparator
`(a, b) => a.name.localeCompare(b.name)` - i.e. by the label, not the raw key. -/
def monthlyData (es : List Expense) : List ChartData :=
  ((groupAmounts (fun e => strTake e.date 7) es).map
      fun p => ChartData.mk (monthLabel p.1) p.2).mergeSort
    (fun a b => strLe a.name b.name)

/-- The metrics object assembled by `reportMetrics` in report-page.tsx. -/
structure ReportMetrics where
  totalSpent : ℚ
  averageExpense : ℚ
  expenseCount : Nat
  categoryData : List ChartData
  monthlyData : List ChartData
  topCategory : Option ChartData
  deriving DecidableEq, Repr

/-- `reportMetrics` of report-page.tsx: `null` (here `none`) when the filtered
list is empty, otherwise totals, average, groupings and the top category
(`categoryData[0] || null`). -/
def reportMetrics (filtered : List Expense) : Option ReportMetrics :=
  if filtered.isEmpty then none
  else some
    { totalSpent := sumAmounts filtered
      averageExpense := sumAmounts filtered / (filtered.length : ℚ)
      expenseCount := filtered.length
      categoryData := categoryData filtered
      monthlyData := monthlyData filtered
      topCategory := (categoryData filtered).head? }

/-- The `BudgetWithSpending` record of budget-list.tsx: the spread budget plus
the derived spending fields.  `percentageUsed` is a `JNum` because it comes from
a division that the code does not guard against a zero limit. -/
structure BudgetWithSpending where
  id : Option Nat
  category : String
  monthlyLimit : ℚ
  month : String
  spent : ℚ
  createdAt : Option String
  actualSpent : ℚ
  remaining : ℚ
  percentageUsed : JNum
  isOverBudget : Bool
  deriving DecidableEq, Repr

/-- The map body of `budgetsWithSpending` in budget-list.tsx: restrict expenses
to the category and month prefix of the budget, sum them, and derive remaining,
clamped percentage used, and the over-budget flag. -/
def computeSpending (expenses : List Expense) (budget : Budget) : BudgetWithSpending :=
  let categoryExpenses := expenses.filter fun e =>
    decide (e.category = budget.category) && strStartsWith e.date budget.month
  let actualSpent := sumAmounts categoryExpenses
  { id := budget.id
    category := budget.category
    monthlyLimit := budget.monthlyLimit
    month := budget.month
    spent := budget.spent
    createdAt := budget.createdAt
    actualSpent := actualSpent
    remaining := budget.monthlyLimit - actualSpent
    percentageUsed := jmin (jmul100 (jdiv actualSpent budget.monthlyLimit)) 100
    isOverBudget := decide (actualSpent > budget.monthlyLimit) }

/-- The sort comparator of `budgetsWithSpending` as a keep-in-order relation:
`b.month.localeCompare(a.month)` when months differ, then `-1`/`1` on the
over-budget flags, then `b.percentageUsed - a.percentageUsed`. -/
def budgetCompareLe (a b : BudgetWithSpending) : Bool :=
  if a.month ≠ b.month then strLe b.month a.month
  else if a.isOverBudget ≠ b.isOverBudget then a.isOverBudget
  else jleZero (jsub b.percentageUsed a.percentageUsed)

/-- The display ranking of budget-list.tsx: the stable sort by its comparator. -/
def rankBudgets (l : List BudgetWithSpending) : List BudgetWithSpending :=
  l.mergeSort budgetCompareLe

/-- The full `budgetsWithSpending` pipeline of budget-list.tsx: month filter
(empty filter month means "all"), spending computation, ranking. -/
def budgetsWithSpending (budgets : List Budget) (expenses : List Expense)
    (filterMonth : String) : List BudgetWithSpending :=
  rankBudgets
    ((budgets.filter fun b =>
        decide (filterMonth = "") || decide (b.month = filterMonth)).map
      (computeSpending expenses))

/-- One step of `new Set(list)` construction: insertion order, duplicates
ignored. -/
def insertDistinct (acc : List String) (k : String) : List String :=
  if k ∈ acc then acc else acc ++ [k]

/-- The distinct elements of a list in insertion order, as collected by
`new Set(list)`; its length is the `size` of the set. -/
def distinctCategories (l : List String) : List String :=
  l.foldl insertDistinct []

/-- The metrics object assembled by `dashboardMetrics` in dashboard-page.tsx. -/
structure DashboardMetrics where
  totalMonthlySpend : ℚ
  totalBudget : ℚ
  remainingBudget : ℚ
  categoryData : List ChartData
  categoriesCount : Nat
  recentExpenses : List Expense
  deriving DecidableEq, Repr

/-- The `reduce((sum, budget) => sum + budget.monthlyLimit, 0)` idiom. -/
def sumLimits (bs : List Budget) : ℚ :=
  bs.foldl (fun s b => s + b.monthlyLimit) 0

/-- The body of `dashboardMetrics` in dashboard-page.tsx, after its array
guard: month-filtered spend and budget totals, the category chart of the
selected month, the distinct-category count over all expenses, and the first
five expenses. -/
def dashboardMetricsCore (expenses : List Expense) (budgets : List Budget)
    (selectedMonth : String) : DashboardMetrics :=
  let currentMonthExpenses := expenses.filter fun e => strStartsWith e.date selectedMonth
  let totalMonthlySpend := sumAmounts currentMonthExpenses
  let currentMonthBudgets := budgets.filter fun b => decide (b.month = selectedMonth)
  let totalBudget := sumLimits currentMonthBudgets
  { totalMonthlySpend := totalMonthlySpend
    totalBudget := totalBudget
    remainingBudget := totalBudget - totalMonthlySpend
    categoryData := (groupAmounts (fun e => e.category) currentMonthExpenses).map
      fun p => ChartData.mk p.1 p.2
    categoriesCount := (distinctCategories (expenses.map fun e => e.category)).length
    recentExpenses := expenses.take 5 }

/-- A dynamically-typed collection argument as the guards see it: either an
actual array or some non-array value (the only distinction the code makes,
via `Array.isArray`). -/
inductive ArrayInput (α : Type) where
  | arr (l : List α)
  | notArray
  deriving DecidableEq

/-- `filteredExpenses` including its report-page guard
`if (!Array.isArray(expenses)) return []`. -/
def filteredExpensesGuarded (input : ArrayInput Expense)
    (startDate endDate selectedCategory : String) : List Expense :=
  match input with
  | ArrayInput.notArray => []
  | ArrayInput.arr es => filteredExpenses es startDate endDate selectedCategory

/-- `dashboardMetrics` including its guard, which returns `null` (here `none`)
when either collection is not an array. -/
def dashboardMetrics (es : ArrayInput Expense) (bs : ArrayInput Budget)
    (selectedMonth : String) : Option DashboardMetrics :=
  match es, bs with
  | ArrayInput.arr es, ArrayInput.arr bs => some (dashboardMetricsCore es bs selectedMonth)
  | _, _ => none

/-- Modelled from the spec: the distinct keys of a list, first occurrence
first, as the spec sentence "one entry per distinct category / month" reads. -/
def distinctKeys : List String → List String
  | [] => []
  | k :: rest => k :: distinctKeys (rest.filter fun x => decide (x ≠ k))
termination_by l => l.length
decreasing_by
  simp_wf
  exact Nat.lt_succ_of_le (List.length_filter_le _ _)

/-- Modelled from the spec: the grouping "mapping key to sum(amount)" with one
entry per distinct key in first-occurrence order. -/
def specGroup (key : Expense → String) (es : List Expense) : List (String × ℚ) :=
  (distinctKeys (es.map key)).map fun c =>
    (c, sumAmounts (es.filter fun e => decide (key e = c)))

/-- Modelled from the spec: category grouping materialized as chart entries and
stably sorted by value descending (ties keep first-occurrence order). -/
def specCategoryData (es : List Expense) : List ChartData :=
  ((specGroup (fun e => e.category) es).map fun p => ChartData.mk p.1 p.2).mergeSort
    (fun a b => decide (b.value ≤ a.value))

/-- Modelled from the spec: "percentage of x at most percentage of y" on
JavaScript numbers, with NaN comparing as a tie (as the ECMAScript sort does). -/
def pctLe (x y : JNum) : Bool :=
  match x, y with
  | JNum.nan, _ => true
  | _, JNum.nan => true
  | JNum.negInf, _ => true
  | _, JNum.inf => true
  | JNum.inf, JNum.finite _ => false
  | JNum.inf, JNum.negInf => false
  | JNum.finite _, JNum.negInf => false
  | JNum.finite p, JNum.finite q => decide (p ≤ q)

/-- Modelled from the spec: the three-key ranking order - month descending,
then over-budget budgets first, then percentage used descending. -/
def specBudgetLe (a b : BudgetWithSpending) : Bool :=
  strLt b.month a.month ||
    (decide (a.month = b.month) &&
      ((a.isOverBudget && !b.isOverBudget) ||
        (decide (a.isOverBudget = b.isOverBudget) &&
          pctLe b.percentageUsed a.percentageUsed)))

/-! ### Helper lemmas -/

/-- Summing the values of a list of chart entries (the spec notion of "summing all
group values"). -/
def sumValuesChart (l : List ChartData) : ℚ :=
  l.foldl (fun s x => s + x.value) 0

/-- Summing the values of an association list of keyed amounts. -/
def sumValuesPairs (l : List (String × ℚ)) : ℚ :=
  l.foldl (fun s p => s + p.2) 0

theorem foldl_add_shift {α : Type} (f : α → ℚ) :
    ∀ (l : List α) (s : ℚ),
      l.foldl (fun a x => a + f x) s = s + l.foldl (fun a x => a + f x) 0 := by
  intro l
  induction l with
  | nil => intro s; simp
  | cons x xs ih =>
    intro s
    simp only [List.foldl_cons]
    rw [ih (s + f x), ih (0 + f x)]
    ring

theorem sumAmounts_cons (e : Expense) (es : List Expense) :
    sumAmounts (e :: es) = e.amount + sumAmounts es := by
  simp only [sumAmounts, List.foldl_cons]
  rw [foldl_add_shift (fun e => e.amount) es (0 + e.amount)]
  ring

theorem sumValuesChart_cons (x : ChartData) (l : List ChartData) :
    sumValuesChart (x :: l) = x.value + sumValuesChart l := by
  simp only [sumValuesChart, List.foldl_cons]
  rw [foldl_add_shift (fun x => x.value) l (0 + x.value)]
  ring

theorem sumValuesPairs_cons (p : String × ℚ) (l : List (String × ℚ)) :
    sumValuesPairs (p :: l) = p.2 + sumValuesPairs l := by
  simp only [sumValuesPairs, List.foldl_cons]
  rw [foldl_add_shift (fun p => p.2) l (0 + p.2)]
  ring

theorem sumValuesChart_eq_sum (l : List ChartData) :
    sumValuesChart l = (l.map fun x => x.value).sum := by
  induction l with
  | nil => rfl
  | cons x l ih => rw [sumValuesChart_cons, List.map_cons, List.sum_cons, ih]

theorem sumValuesPairs_eq_sum (l : List (String × ℚ)) :
    sumValuesPairs l = (l.map fun p => p.2).sum := by
  induction l with
  | nil => rfl
  | cons p l ih => rw [sumValuesPairs_cons, List.map_cons, List.sum_cons, ih]

theorem char_toNat_inj (c d : Char) (h : c.toNat = d.toNat) : c = d := by
  unfold Char.toNat at h
  have hv : c.val = d.val := by
    cases hc : c.val
    cases hd : d.val
    simp_all [UInt32.toNat]
    exact congrArg UInt32.mk (BitVec.eq_of_toNat_eq h)
  exact Char.eq_of_val_eq hv

theorem lexLt_irrefl : ∀ l : List Char, lexLt l l = false := by
  intro l
  induction l with
  | nil => rfl
  | cons c cs ih => simp [lexLt, Nat.lt_irrefl, ih]

theorem lexLt_asymm : ∀ as bs : List Char, lexLt as bs = true → lexLt bs as = false := by
  intro as
  induction as with
  | nil =>
    intro bs h
    cases bs with
    | nil => rfl
    | cons d ds => rfl
  | cons c cs ih =>
    intro bs h
    cases bs with
    | nil => exact absurd h (by simp [lexLt])
    | cons d ds =>
      by_cases h1 : c.toNat < d.toNat
      · have h2 : ¬ d.toNat < c.toNat := Nat.lt_asymm h1
        simp [lexLt, h1, h2]
      · by_cases h2 : d.toNat < c.toNat
        · exact absurd h (by simp [lexLt, h1, h2])
        · have h3 : lexLt cs ds = true := by simpa [lexLt, h1, h2] using h
          simp [lexLt, h1, h2, ih ds h3]

theorem lexLt_total : ∀ as bs : List Char, as ≠ bs →
    lexLt as bs = true ∨ lexLt bs as = true := by
  intro as
  induction as with
  | nil =>
    intro bs hne
    cases bs with
    | nil => exact absurd rfl hne
    | cons d ds => exact Or.inl rfl
  | cons c cs ih =>
    intro bs hne
    cases bs with
    | nil => exact Or.inr rfl
    | cons d ds =>
      rcases Nat.lt_trichotomy c.toNat d.toNat with h1 | h1 | h1
      · exact Or.inl (by simp [lexLt, h1])
      · have hcd : c = d := char_toNat_inj c d h1
        subst hcd
        have hds : cs ≠ ds := fun h => hne (by rw [h])
        rcases ih ds hds with h2 | h2
        · exact Or.inl (by simp [lexLt, Nat.lt_irrefl, h2])
        · exact Or.inr (by simp [lexLt, Nat.lt_irrefl, h2])
      · exact Or.inr (by simp [lexLt, h1, Nat.lt_asymm h1])

theorem string_data_inj (a b : String) (h : a.data = b.data) : a = b := by
  cases a
  cases b
  exact congrArg String.mk h

theorem strLe_eq_strLt_of_ne (a b : String) (h : a ≠ b) :
    strLe a b = strLt a b := by
  have hdata : a.data ≠ b.data := fun hd => h (string_data_inj a b hd)
  unfold strLe strLt
  rcases lexLt_total a.data b.data hdata with h1 | h1
  · rw [lexLt_asymm a.data b.data h1, h1]
    rfl
  · rw [h1, lexLt_asymm b.data a.data h1]
    rfl

/-- The third sort key of the code (comparator difference tested against zero) agrees
with the spec-side percentage comparison. -/
theorem jleZero_jsub_eq_pctLe (x y : JNum) :
    jleZero (jsub x y) = pctLe x y := by
  cases x <;> cases y <;> simp [jsub, jleZero, pctLe, sub_nonpos]

theorem sumValuesPairs_upsert (acc : List (String × ℚ)) (k : String) (v : ℚ) :
    sumValuesPairs (upsertAmount acc k v) = sumValuesPairs acc + v := by
  induction acc with
  | nil =>
    rw [upsertAmount, sumValuesPairs_cons]
    show v + sumValuesPairs [] = sumValuesPairs [] + v
    ring
  | cons p rest ih =>
    obtain ⟨k', v'⟩ := p
    rw [upsertAmount]
    by_cases h : k' = k
    · rw [if_pos h, sumValuesPairs_cons, sumValuesPairs_cons]
      show v' + v + sumValuesPairs rest = v' + sumValuesPairs rest + v
      ring
    · rw [if_neg h, sumValuesPairs_cons, sumValuesPairs_cons, ih]
      show v' + (sumValuesPairs rest + v) = v' + sumValuesPairs rest + v
      ring

theorem sumValuesPairs_foldl_upsert (key : Expense → String) :
    ∀ (es : List Expense) (acc : List (String × ℚ)),
      sumValuesPairs (es.foldl (fun a e => upsertAmount a (key e) e.amount) acc) =
        sumValuesPairs acc + sumAmounts es := by
  intro es
  induction es with
  | nil => intro acc; simp [sumAmounts]
  | cons e es ih =>
    intro acc
    rw [List.foldl_cons, ih, sumValuesPairs_upsert, sumAmounts_cons]
    ring

theorem sumValuesPairs_groupAmounts (key : Expense → String) (es : List Expense) :
    sumValuesPairs (groupAmounts key es) = sumAmounts es := by
  rw [groupAmounts, sumValuesPairs_foldl_upsert]
  show sumValuesPairs [] + sumAmounts es = sumAmounts es
  simp [sumValuesPairs]

theorem filter_map_comm {α β : Type} (f : α → β) (p : β → Bool) (l : List α) :
    (l.map f).filter p = (l.filter fun a => p (f a)).map f := by
  induction l with
  | nil => rfl
  | cons a l ih =>
    by_cases h : p (f a)
    · simp [List.filter_cons, h, ih]
    · simp [List.filter_cons, h, ih]

theorem upsert_of_not_mem (acc : List (String × ℚ)) (k : String) (v : ℚ)
    (h : k ∉ acc.map Prod.fst) :
    upsertAmount acc k v = acc ++ [(k, v)] := by
  induction acc with
  | nil => rfl
  | cons p rest ih =>
    obtain ⟨k', v'⟩ := p
    have hk : ¬ k' = k := by
      intro he
      exact h (by simp [he])
    rw [upsertAmount, if_neg hk, ih (fun hm => h (by simp [hm]))]
    rfl

theorem upsert_of_mem (acc : List (String × ℚ)) (k : String) (v : ℚ)
    (hnd : (acc.map Prod.fst).Nodup) (h : k ∈ acc.map Prod.fst) :
    upsertAmount acc k v = acc.map fun p => if p.1 = k then (p.1, p.2 + v) else p := by
  induction acc with
  | nil => simp at h
  | cons p rest ih =>
    obtain ⟨k', v'⟩ := p
    rw [upsertAmount]
    by_cases hk : k' = k
    · subst hk
      rw [if_pos rfl]
      have hnotin : k' ∉ rest.map Prod.fst :=
        (List.nodup_cons.mp (by simpa using hnd)).1
      have hrest : (rest.map fun p => if p.1 = k' then (p.1, p.2 + v) else p) = rest := by
        have hpt : ∀ q ∈ rest, (if q.1 = k' then (q.1, q.2 + v) else q) = q := by
          intro q hq
          have hqne : ¬ q.1 = k' := fun he => hnotin (he ▸ List.mem_map_of_mem Prod.fst hq)
          rw [if_neg hqne]
        calc (rest.map fun p => if p.1 = k' then (p.1, p.2 + v) else p)
            = rest.map id := List.map_congr_left hpt
          _ = rest := List.map_id rest
      rw [List.map_cons, if_pos rfl, hrest]
    · rw [if_neg hk]
      have hmem : k ∈ rest.map Prod.fst := by
        have h2 : k = k' ∨ k ∈ rest.map Prod.fst := by simpa using h
        rcases h2 with h2 | h2
        · exact absurd h2.symm hk
        · exact h2
      have hnd2 : (rest.map Prod.fst).Nodup :=
        (List.nodup_cons.mp (by simpa using hnd)).2
      rw [ih hnd2 hmem, List.map_cons, if_neg hk]

theorem keys_map_update (acc : List (String × ℚ)) (k : String) (v : ℚ) :
    ((acc.map fun p => if p.1 = k then (p.1, p.2 + v) else p).map Prod.fst) =
      acc.map Prod.fst := by
  rw [List.map_map]
  apply List.map_congr_left
  intro p _
  by_cases h : p.1 = k <;> simp [h]

theorem mem_distinctKeys (l : List String) (c : String) :
    c ∈ distinctKeys l ↔ c ∈ l := by
  induction l using distinctKeys.induct with
  | case1 => simp [distinctKeys]
  | case2 k rest ih =>
    rw [distinctKeys]
    simp only [List.mem_cons, ih, List.mem_filter, decide_eq_true_eq]
    by_cases hck : c = k
    · simp [hck]
    · simp [hck]

theorem sumAmounts_filter_cons (key : Expense → String) (e : Expense)
    (es : List Expense) (c : String) :
    sumAmounts ((e :: es).filter fun x => decide (key x = c)) =
      (if key e = c then e.amount else 0) +
        sumAmounts (es.filter fun x => decide (key x = c)) := by
  by_cases h : key e = c
  · simp [List.filter_cons, h, sumAmounts_cons]
  · simp [List.filter_cons, h]

theorem specGroup_nil (key : Expense → String) : specGroup key [] = [] := by
  simp [specGroup, distinctKeys]

theorem specGroup_cons (key : Expense → String) (e : Expense) (L : List Expense) :
    specGroup key (e :: L) =
      (key e, e.amount + sumAmounts (L.filter fun x => decide (key x = key e))) ::
        specGroup key (L.filter fun x => decide (key x ≠ key e)) := by
  unfold specGroup
  rw [List.map_cons, distinctKeys, List.map_cons]
  congr 1
  · rw [sumAmounts_filter_cons, if_pos rfl]
  · rw [filter_map_comm]
    apply List.map_congr_left
    intro c hc
    have hc2 : c ∈ (L.filter fun a => decide (key a ≠ key e)).map key :=
      (mem_distinctKeys _ c).mp hc
    have hcne : c ≠ key e := by
      rcases List.mem_map.mp hc2 with ⟨a, ha, rfl⟩
      simpa using (List.mem_filter.mp ha).2
    have hval : ((e :: L).filter fun x => decide (key x = c)) =
        ((L.filter fun a => decide (key a ≠ key e)).filter fun x => decide (key x = c)) := by
      rw [List.filter_filter]
      rw [List.filter_cons, if_neg (by simpa using fun h => hcne h.symm)]
      apply List.filter_congr
      intro x _
      by_cases hx : key x = c
      · have : key x ≠ key e := fun h2 => hcne (hx ▸ h2)
        simp [hx, this, hcne]
      · simp [hx]
    rw [hval]

theorem foldl_upsert_spec (key : Expense → String) :
    ∀ (es : List Expense) (acc : List (String × ℚ)), (acc.map Prod.fst).Nodup →
      es.foldl (fun a e => upsertAmount a (key e) e.amount) acc =
        (acc.map fun p =>
          (p.1, p.2 + sumAmounts (es.filter fun x => decide (key x = p.1)))) ++
          specGroup key (es.filter fun x => decide (key x ∉ acc.map Prod.fst)) := by
  intro es
  induction es with
  | nil =>
    intro acc _
    simp [specGroup, distinctKeys, sumAmounts]
  | cons e es ih =>
    intro acc hnd
    rw [List.foldl_cons]
    by_cases hmem : key e ∈ acc.map Prod.fst
    · rw [upsert_of_mem acc (key e) e.amount hnd hmem]
      rw [ih _ (by rw [keys_map_update]; exact hnd)]
      rw [keys_map_update, List.map_map]
      have hfilter : ((e :: es).filter fun x => decide (key x ∉ acc.map Prod.fst)) =
          es.filter fun x => decide (key x ∉ acc.map Prod.fst) := by
        rw [List.filter_cons, if_neg (by simp [hmem])]
      rw [hfilter]
      congr 1
      apply List.map_congr_left
      intro p _
      by_cases hp : p.1 = key e
      · simp only [Function.comp_apply, if_pos hp]
        rw [sumAmounts_filter_cons, if_pos hp.symm]
        show (p.1, p.2 + e.amount + _) = (p.1, p.2 + (e.amount + _))
        rw [add_assoc]
      · simp only [Function.comp_apply, if_neg hp]
        rw [sumAmounts_filter_cons, if_neg (fun h => hp h.symm), zero_add]
    · rw [upsert_of_not_mem acc (key e) e.amount hmem]
      have hnd2 : ((acc ++ [(key e, e.amount)]).map Prod.fst).Nodup := by
        rw [List.map_append]
        simp [List.nodup_append, hnd, hmem]
      rw [ih _ hnd2]
      have hfilter : ((e :: es).filter fun x => decide (key x ∉ acc.map Prod.fst)) =
          e :: es.filter fun x => decide (key x ∉ acc.map Prod.fst) := by
        rw [List.filter_cons, if_pos (by simp [hmem])]
      rw [hfilter, specGroup_cons]
      simp only [List.map_append, List.map_cons, List.map_nil]
      rw [List.append_assoc]
      congr 1
      · -- entries already present keep their sums when e joins the list
        apply List.map_congr_left
        intro p hp
        have hpne : ¬ key e = p.1 := by
          intro he
          exact hmem (he ▸ List.mem_map_of_mem Prod.fst hp)
        rw [sumAmounts_filter_cons, if_neg hpne, zero_add]
      · -- the new entry and the remaining distinct groups line up
        have hhead : (List.filter (fun x => decide (key x = key e))
              (List.filter (fun x => decide (key x ∉ acc.map Prod.fst)) es)) =
            List.filter (fun x => decide (key x = key e)) es := by
          rw [List.filter_filter]
          apply List.filter_congr
          intro x _
          by_cases hx : key x = key e
          · simp [hx, hmem]
          · simp [hx]
        have htail : (List.filter (fun x => decide (key x ≠ key e))
              (List.filter (fun x => decide (key x ∉ acc.map Prod.fst)) es)) =
            List.filter (fun x => decide (key x ∉ acc.map Prod.fst ++ [key e])) es := by
          rw [List.filter_filter]
          apply List.filter_congr
          intro x _
          by_cases hx1 : key x ∈ acc.map Prod.fst
          · have hne : ¬ key x = key e := fun he => hmem (he ▸ hx1)
            simp [hx1, hne]
          · by_cases hx2 : key x = key e
            · simp [hx1, hx2]
            · simp [hx1, hx2]
        rw [List.singleton_append, hhead, htail]

theorem groupAmounts_eq_specGroup (key : Expense → String) (es : List Expense) :
    groupAmounts key es = specGroup key es := by
  rw [groupAmounts, foldl_upsert_spec key es [] (by simp)]
  simp only [List.map_nil, List.nil_append]
  congr 1
  apply (List.filter_eq_self).mpr
  intro e _
  simp

theorem strLt_self (s : String) : strLt s s = false :=
  lexLt_irrefl s.data

theorem budgetCompareLe_eq_specBudgetLe : budgetCompareLe = specBudgetLe := by
  funext a b
  unfold budgetCompareLe specBudgetLe
  by_cases hm : a.month = b.month
  · rw [if_neg (not_not_intro hm), hm, strLt_self]
    have hdec : decide (b.month = b.month) = true := by simp
    rw [hdec]
    simp only [Bool.false_or, Bool.true_and]
    by_cases ho : a.isOverBudget = b.isOverBudget
    · rw [if_neg (not_not_intro ho), jleZero_jsub_eq_pctLe, ho]
      cases b.isOverBudget <;> simp
    · rw [if_pos ho]
      cases ha : a.isOverBudget <;> cases hb : b.isOverBudget <;> simp_all
  · rw [if_pos hm]
    have hd : decide (a.month = b.month) = false := by simp [hm]
    rw [hd]
    simp only [Bool.false_and, Bool.or_false]
    exact strLe_eq_strLt_of_ne b.month a.month (fun he => hm he.symm)

/-! ### The claims -/

/-- Claim C1: for every budget with positive monthly limit and every expense list, the
budget-progress computation restricts expenses to the budget category and
month prefix, sums them into actualSpent, and derives remaining as
monthlyLimit - actualSpent, percentageUsed as actualSpent/monthlyLimit*100
clamped to at most 100, and isOverBudget as actualSpent > monthlyLimit. -/
theorem budget_progress_fields (b : Budget) (es : List Expense)
    (h : 0 < b.monthlyLimit) :
    (computeSpending es b).actualSpent =
        sumAmounts (es.filter fun e =>
          decide (e.category = b.category) && strStartsWith e.date b.month) ∧
      (computeSpending es b).remaining =
        b.monthlyLimit - sumAmounts (es.filter fun e =>
          decide (e.category = b.category) && strStartsWith e.date b.month) ∧
      (computeSpending es b).percentageUsed =
        JNum.finite (min (sumAmounts (es.filter fun e =>
          decide (e.category = b.category) && strStartsWith e.date b.month) /
            b.monthlyLimit * 100) 100) ∧
      ((computeSpending es b).isOverBudget = true ↔
        b.monthlyLimit < sumAmounts (es.filter fun e =>
          decide (e.category = b.category) && strStartsWith e.date b.month)) := by
  have hne : b.monthlyLimit ≠ 0 := ne_of_gt h
  refine ⟨rfl, rfl, ?_, ?_⟩
  · show jmin (jmul100 (jdiv _ b.monthlyLimit)) 100 = _
    rw [jdiv, if_neg hne]
    rfl
  · show decide (_ > b.monthlyLimit) = true ↔ _
    simp [gt_iff_lt]

unseal Rat.add Rat.mul Rat.inv Rat.sub in
/-- Claim C1 witness: the example of the spec - a 100 limit with 150 of in-scope spending
gives actualSpent 150, remaining -50, clamped percentageUsed 100 and the
over-budget flag. -/
theorem budget_progress_fields_witness :
    (computeSpending [⟨1, "groceries", 150, "Food", "2025-08-10"⟩]
        ⟨some 1, "Food", 100, "2025-08", 0, none⟩).actualSpent = 150 ∧
      (computeSpending [⟨1, "groceries", 150, "Food", "2025-08-10"⟩]
        ⟨some 1, "Food", 100, "2025-08", 0, none⟩).remaining = -50 ∧
      (computeSpending [⟨1, "groceries", 150, "Food", "2025-08-10"⟩]
        ⟨some 1, "Food", 100, "2025-08", 0, none⟩).percentageUsed = JNum.finite 100 ∧
      (computeSpending [⟨1, "groceries", 150, "Food", "2025-08-10"⟩]
        ⟨some 1, "Food", 100, "2025-08", 0, none⟩).isOverBudget = true := by
  obtain ⟨h1, h2, h3, h4⟩ :=
    budget_progress_fields ⟨some 1, "Food", 100, "2025-08", 0, none⟩
      [⟨1, "groceries", 150, "Food", "2025-08-10"⟩] (by norm_num)
  exact ⟨h1.trans (by decide), h2.trans (by decide), h3.trans (by decide),
    h4.mpr (by decide)⟩

unseal Rat.add Rat.mul Rat.inv Rat.sub List.merge List.mergeSort in
/-- Claim C2: the month grouping sorts by the humanized label, not by the raw
YYYY-MM key - with months 2024-12 and 2025-04 the code places "Apr 2025"
before "Dec 2024" although the raw keys order the other way. -/
theorem month_grouping_sorts_by_label :
    monthlyData [⟨1, "a", 10, "Food", "2024-12-05"⟩, ⟨2, "b", 20, "Food", "2025-04-05"⟩] =
        [ChartData.mk "Apr 2025" 20, ChartData.mk "Dec 2024" 10] ∧
      strLt "2024-12" "2025-04" = true := by
  decide

/-- Claim C3: the report filter returns an order-preserving subsequence containing
exactly the expenses within the optional date range and category, and is the
identity when all three criteria are absent. -/
theorem filter_is_ordered_subsequence (es : List Expense) (sd ed c : String) :
    (filteredExpenses es sd ed c).Sublist es ∧
      (∀ e, e ∈ filteredExpenses es sd ed c ↔
        e ∈ es ∧ (sd = "" ∨ strLe sd e.date = true) ∧
          (ed = "" ∨ strLe e.date ed = true) ∧ (c = "" ∨ e.category = c)) ∧
      (sd = "" → ed = "" → c = "" → filteredExpenses es sd ed c = es) := by
  refine ⟨List.filter_sublist es, fun e => ?_, fun h1 h2 h3 => ?_⟩
  · simp [filteredExpenses, List.mem_filter, and_assoc]
  · subst h1
    subst h2
    subst h3
    simp [filteredExpenses, List.filter_eq_self]

/-- Claim C3 witness: with all three criteria absent the filter returns the input
list unchanged. -/
theorem filter_is_ordered_subsequence_witness :
    filteredExpenses [⟨1, "a", 10, "Food", "2025-08-01"⟩] "" "" "" =
      [⟨1, "a", 10, "Food", "2025-08-01"⟩] :=
  (filter_is_ordered_subsequence [⟨1, "a", 10, "Food", "2025-08-01"⟩] "" "" "").2.2
    rfl rfl rfl

/-- Claim C4: the display ranking is the stable sort by the three-key order - month
descending, then over-budget first, then percentage used descending - and for
two budgets of the same month the over-budget one sorts strictly first. -/
theorem ranking_is_three_key_sort :
    (∀ l : List BudgetWithSpending, rankBudgets l = l.mergeSort specBudgetLe) ∧
      (∀ a b : BudgetWithSpending, a.month = b.month → a.isOverBudget = true →
        b.isOverBudget = false →
          budgetCompareLe a b = true ∧ budgetCompareLe b a = false) := by
  constructor
  · intro l
    rw [rankBudgets, budgetCompareLe_eq_specBudgetLe]
  · intro a b h1 h2 h3
    constructor
    · unfold budgetCompareLe
      rw [if_neg (not_not_intro h1), if_pos (by rw [h2, h3]; simp), h2]
    · unfold budgetCompareLe
      rw [if_neg (not_not_intro h1.symm), if_pos (by rw [h2, h3]; simp), h3]

/-- Claim C4 witness: two same-month budgets, one over budget and one under - the
over-budget one compares first and not conversely. -/
theorem ranking_is_three_key_sort_witness :
    budgetCompareLe
        { id := none, category := "Food", monthlyLimit := 100, month := "2025-08",
          spent := 0, createdAt := none, actualSpent := 150, remaining := -50,
          percentageUsed := JNum.finite 100, isOverBudget := true }
        { id := none, category := "Rent", monthlyLimit := 100, month := "2025-08",
          spent := 0, createdAt := none, actualSpent := 50, remaining := 50,
          percentageUsed := JNum.finite 50, isOverBudget := false } = true ∧
      budgetCompareLe
        { id := none, category := "Rent", monthlyLimit := 100, month := "2025-08",
          spent := 0, createdAt := none, actualSpent := 50, remaining := 50,
          percentageUsed := JNum.finite 50, isOverBudget := false }
        { id := none, category := "Food", monthlyLimit := 100, month := "2025-08",
          spent := 0, createdAt := none, actualSpent := 150, remaining := -50,
          percentageUsed := JNum.finite 100, isOverBudget := true } = false :=
  ranking_is_three_key_sort.2 _ _ rfl rfl rfl

unseal Rat.add Rat.mul Rat.inv Rat.sub in
/-- Claim C5: with a zero monthly limit the code divides by zero - JavaScript yields
Infinity, so the clamp produces a percentageUsed of 100, not the 0 the spec
prescribes; the over-budget flag does equal actualSpent > 0 here. -/
theorem zero_limit_gives_100_percent :
    (computeSpending [⟨1, "lunch", 50, "Food", "2025-08-01"⟩]
          ⟨some 1, "Food", 0, "2025-08", 0, none⟩).percentageUsed = JNum.finite 100 ∧
      (computeSpending [⟨1, "lunch", 50, "Food", "2025-08-01"⟩]
          ⟨some 1, "Food", 0, "2025-08", 0, none⟩).isOverBudget = true ∧
      (computeSpending [⟨1, "lunch", 50, "Food", "2025-08-01"⟩]
          ⟨some 1, "Food", 0, "2025-08", 0, none⟩).percentageUsed ≠ JNum.finite 0 := by
  decide

/-- Claim C6: summing the values of the category grouping recovers the total of all
amounts in the input list. -/
theorem category_sum_equals_total (es : List Expense) :
    sumValuesChart (categoryData es) = sumAmounts es := by
  rw [sumValuesChart_eq_sum, categoryData]
  have hperm := List.mergeSort_perm
    ((groupAmounts (fun e => e.category) es).map fun p => ChartData.mk p.1 p.2)
    (fun a b => decide (b.value ≤ a.value))
  rw [(hperm.map fun x => x.value).sum_eq, List.map_map]
  have hcomp : ((fun x : ChartData => x.value) ∘ fun p : String × ℚ => ChartData.mk p.1 p.2) =
      fun p : String × ℚ => p.2 := rfl
  rw [hcomp, ← sumValuesPairs_eq_sum, sumValuesPairs_groupAmounts]

/-- Claim C7: the category grouping produces one entry per distinct category, in
first-occurrence order before sorting, each valued at the total of that category,
and the materialized list is the stable value-descending sort of those
entries. -/
theorem category_grouping_matches_spec (es : List Expense) :
    categoryData es = specCategoryData es := by
  rw [categoryData, specCategoryData, groupAmounts_eq_specGroup]

/-- Claim C8: empty input collections yield empty or zero results from every
aggregation - no exceptional control path exists. -/
theorem empty_collections_zero_results :
    (∀ sd ed c, filteredExpenses [] sd ed c = []) ∧
      reportMetrics [] = none ∧
      categoryData [] = [] ∧
      monthlyData [] = [] ∧
      (∀ m, dashboardMetricsCore [] [] m =
        { totalMonthlySpend := 0, totalBudget := 0, remainingBudget := 0,
          categoryData := [], categoriesCount := 0, recentExpenses := [] }) ∧
      (∀ fm, budgetsWithSpending [] [] fm = []) := by
  refine ⟨fun sd ed c => rfl, rfl, ?_, ?_, fun m => ?_, fun fm => ?_⟩
  · simp [categoryData, groupAmounts]
  · simp [monthlyData, groupAmounts]
  · simp [dashboardMetricsCore, sumAmounts, sumLimits, distinctCategories, groupAmounts]
  · simp [budgetsWithSpending, rankBudgets]

/-- Claim C9 counterexample: a non-array input does not fail fast with an
invalid-argument error - the report filter returns the very same empty
sentinel as a valid empty array, and the dashboard returns its null sentinel. -/
theorem nonarray_counterexample :
    filteredExpensesGuarded ArrayInput.notArray "" "" "" =
        filteredExpensesGuarded (ArrayInput.arr []) "" "" "" ∧
      dashboardMetrics ArrayInput.notArray (ArrayInput.arr []) "2025-08" = none :=
  ⟨rfl, rfl⟩

/-- Claim C9 amended: non-array input is silently mapped to the sentinel results
(empty list, null metrics) rather than raising an invalid-argument error,
while valid empty data likewise signals only via sentinels. -/
theorem nonarray_input_yields_sentinel :
    (∀ sd ed c, filteredExpensesGuarded ArrayInput.notArray sd ed c = []) ∧
      (∀ (bs : ArrayInput Budget) m, dashboardMetrics ArrayInput.notArray bs m = none) ∧
      (∀ (es : ArrayInput Expense) m, dashboardMetrics es ArrayInput.notArray m = none) ∧
      reportMetrics [] = none := by
  refine ⟨fun sd ed c => rfl, fun bs m => ?_, fun es m => ?_, rfl⟩
  · cases bs <;> rfl
  · cases es <;> rfl

unseal Rat.add Rat.mul Rat.inv Rat.sub in
/-- Claim C10: the distinct-category count of the dashboard is computed over the whole
expense collection and is therefore identical for any two selected months,
while the monthly spend and category chart of the same inputs do depend on
the selected month. -/
theorem categories_count_ignores_selected_month :
    (∀ (es : List Expense) (bs : List Budget) (m₁ m₂ : String),
        (dashboardMetricsCore es bs m₁).categoriesCount =
          (dashboardMetricsCore es bs m₂).categoriesCount) ∧
      (∃ (es : List Expense) (bs : List Budget) (m₁ m₂ : String),
        (dashboardMetricsCore es bs m₁).totalMonthlySpend ≠
            (dashboardMetricsCore es bs m₂).totalMonthlySpend ∧
          (dashboardMetricsCore es bs m₁).categoryData ≠
            (dashboardMetricsCore es bs m₂).categoryData) := by
  refine ⟨fun es bs m₁ m₂ => rfl,
    ⟨[⟨1, "coffee", 10, "Food", "2025-08-01"⟩], [], "2025-08", "2025-07", ?_, ?_⟩⟩
  · decide
  · decide

end BudgetBuddy
